import Mathlib

/-!
Shallow embedding of the variant-QC filtering engine of `post_QC.py`
(UKB post-QC / LDSC preparation scripts).

Conventions of the embedding:
* Python `float` arithmetic is modelled by exact rational arithmetic (`ℚ`);
  Python `int` counts are `ℕ`/`ℤ` as the data model dictates.
* Python strings are modelled through their character lists (`String.data`);
  the Python string primitives used by the code (`split`, `strip`, `in`)
  are re-implemented structurally below so that they compute in the kernel.
* Python `dict` built by repeated assignment is modelled by an association
  list built by appending, with lookup returning the *last* binding
  (matching dict overwrite on duplicate keys).
* Fallible Python code (`try`/`except`, `ZeroDivisionError`) is modelled
  with `Option`/`Except`.
-/

/-- Python `str.strip()`: drop whitespace from both ends. -/
def pyStrip (cs : List Char) : List Char :=
  ((cs.dropWhile Char.isWhitespace).reverse.dropWhile Char.isWhitespace).reverse

/-- Python `str.split(";")`: split a character list at every `;`; the empty
string yields one empty segment, like Python. -/
def splitSemi : List Char → List (List Char)
  | [] => [[]]
  | c :: rest =>
    if c = ';' then [] :: splitSemi rest
    else
      match splitSemi rest with
      | [] => [[c]]
      | s :: ss => (c :: s) :: ss

/-- Association-list model of the per-row key/value map built by
`parse_info` (Python dict with last-assignment-wins). -/
abbrev InfoMap := List (String × String)

/-- Lookup in an `InfoMap`: the last binding for a key wins, matching the
behaviour of a Python dict built by repeated assignment. -/
def lookupInfo (m : InfoMap) (k : String) : Option String :=
  (m.reverse.find? (fun p => p.1 == k)).map (·.2)

/-- Embeds the loop body of `parse_info` (post_QC.py lines 13-18): an empty
segment is skipped, a segment without `=` is skipped, otherwise the segment
is split at its first `=` (Python `kv.split("=", 1)`) and both sides are
stripped. -/
def parseSeg (kv : List Char) : Option (String × String) :=
  if kv.isEmpty then none
  else if kv.contains '=' then
    let k := kv.takeWhile (fun c => c ≠ '=')
    let v := (kv.dropWhile (fun c => c ≠ '=')).tail
    some (String.mk (pyStrip k), String.mk (pyStrip v))
  else none

/-- One step of the `parse_info` accumulation: append the recognised
segment, or keep the map unchanged for a skipped segment. -/
def parseStep (out : InfoMap) (kv : List Char) : InfoMap :=
  match parseSeg kv with
  | some p => out ++ [p]
  | none => out

/-- Embeds `parse_info` (post_QC.py lines 10-19): split the blob on `;`
and accumulate the recognised segments in order. -/
def parse_info (info_str : String) : InfoMap :=
  (splitSemi info_str.data).foldl parseStep []

/-- Embeds `emac_from_fields` (post_QC.py lines 122-130): unavailable when
either input is unavailable, otherwise `2.0 * n_eff * maf` with
`maf = aaf if aaf <= 0.5 else 1.0 - aaf`. -/
def emac_from_fields (aaf n_eff : Option ℚ) : Option ℚ :=
  match aaf, n_eff with
  | some a, some n =>
      let maf := if a ≤ 1/2 then a else 1 - a
      some (2 * n * maf)
  | _, _ => none

/-- Rounds a positive rational to the nearest binary64 value (53-bit
significand, round-to-nearest with ties-to-even; the exponent range is
unbounded, which agrees with IEEE binary64 away from overflow and subnormals
— amply true of the magnitudes appearing in QC tables). -/
def fl64pos (x : ℚ) : ℚ :=
  let e : ℤ := Int.log 2 x - 52
  let m : ℤ := ⌊x / (2 : ℚ) ^ e⌋
  let r : ℚ := x / (2 : ℚ) ^ e - m
  if r < 1 / 2 then m * (2 : ℚ) ^ e
  else if 1 / 2 < r then (m + 1) * (2 : ℚ) ^ e
  else if m % 2 = 0 then m * (2 : ℚ) ^ e else (m + 1) * (2 : ℚ) ^ e

/-- Rounds a rational to the nearest binary64 value; rounding is an odd
function, so negative values go through `fl64pos` by symmetry. -/
def fl64 (q : ℚ) : ℚ :=
  if q = 0 then 0
  else if q < 0 then -fl64pos (-q)
  else fl64pos q

/-- Embeds `emac_from_fields` (post_QC.py lines 122-130) under IEEE binary64
semantics: the inputs are binary64 values and each arithmetic operation
(`1.0 - aaf`, `2.0 * n_eff`, and the final product) rounds its exact result
through `fl64`; the comparison `aaf <= 0.5` is exact, as is the constant
`0.5`. This refinement of the exact-rational `emac_from_fields` decides
rounding-sensitive properties of the source. -/
def emac_from_fields_ieee (aaf n_eff : Option ℚ) : Option ℚ :=
  match aaf, n_eff with
  | some a, some n =>
      let maf := if a ≤ 1 / 2 then a else fl64 (1 - a)
      some (fl64 (fl64 (2 * n) * maf))
  | _, _ => none

/-- Embeds the strict per-statistic check of post_QC.py lines 236-237:
`(x is not None) and (x >= threshold)` — an unavailable statistic fails. -/
def pass_strict : Option ℚ → ℚ → Bool
  | none, _ => false
  | some v, thr => decide (thr ≤ v)

/-- Modelled from the spec: the permissive revision of the filter policy is
not part of `src` (only the strict revision `post_QC.py` is). Per spec §4.5,
under the permissive semantics a statistic that could not be determined does
not cause rejection; a determined value below the threshold still rejects. -/
def pass_permissive : Option ℚ → ℚ → Bool
  | none, _ => true
  | some v, thr => decide (thr ≤ v)

/-- Embeds the admission decision of post_QC.py line 250:
`if pass_hwe and pass_emac` under the strict semantics. -/
def admit_strict (hwe_p emac : Option ℚ) (hwe_minp emac_min : ℚ) : Bool :=
  pass_strict hwe_p hwe_minp && pass_strict emac emac_min

/-- Modelled from the spec: the admission decision of the permissive
revision — admit iff both checks pass under the permissive semantics. -/
def admit_permissive (hwe_p emac : Option ℚ) (hwe_minp emac_min : ℚ) : Bool :=
  pass_permissive hwe_p hwe_minp && pass_permissive emac emac_min

/-! ## HWE exact test engine (post_QC.py lines 22-76) -/

/-- Tolerance `1e-15` used in the mid-p accumulation (post_QC.py lines 65 and 73). -/
def hweTol : ℚ := 1 / 10 ^ 15

/-- Multiplier applied when stepping the heterozygote count from `i` to
`i - 2` (post_QC.py lines 44 and 64):
`i*(i-1) / (4.0*((rare-i)//2+1)*(((2n-rare)-i)//2+1))` with `m = 2n - rare`.
In every reachable call `i ≤ min rare m`, so truncated `ℕ` subtraction and
`ℕ` floor division agree with Python's `int` arithmetic there. -/
def leftStepMul (rare m i : ℕ) : ℚ :=
  ((i * (i - 1) : ℕ) : ℚ) / ((4 * ((rare - i) / 2 + 1) * ((m - i) / 2 + 1) : ℕ) : ℚ)

/-- Multiplier applied when stepping the heterozygote count from `i` to
`i + 2` (post_QC.py lines 51 and 72):
`(((rare-i)//2) * (((2n-rare)-i)//2) * 4.0) / ((i+2)*(i+1))`. -/
def rightStepMul (rare m i : ℕ) : ℚ :=
  ((((rare - i) / 2) * ((m - i) / 2) * 4 : ℕ) : ℚ) / (((i + 2) * (i + 1) : ℕ) : ℚ)

/-- The left accumulation of `p_total` (post_QC.py lines 42-46):
`while i > 0: prob *= ...; p_total += prob; i -= 2`. Returns the sum of the
contributions added to `p_total`. The Python loop decrements by 2, so it is
expressed as structural two-step recursion on `i`; at `i = 1` the loop body
runs once and then stops (`i` would become `-1`). -/
def leftSum (rare m : ℕ) : ℕ → ℚ → ℚ
  | 0, _ => 0
  | 1, prob => prob * leftStepMul rare m 1
  | i + 2, prob =>
      let p := prob * leftStepMul rare m (i + 2)
      p + leftSum rare m i p

/-- The right accumulation of `p_total` (post_QC.py lines 48-53):
`while i <= rare - 2` over Python ints is `i + 2 ≤ rare`, i.e.
`2 ≤ rare - i` in `ℕ`; the loop is expressed as structural recursion on the
distance `d = rare - i`, which shrinks by 2 as `i` grows by 2. -/
def rightGo (rare m : ℕ) : ℕ → ℕ → ℚ → ℚ
  | 0, _, _ => 0
  | 1, _, _ => 0
  | d + 2, i, prob =>
      let p := prob * rightStepMul rare m i
      p + rightGo rare m d (i + 2) p

/-- Entry point of the right `p_total` loop at heterozygote count `i`. -/
def rightSum (rare m : ℕ) (i : ℕ) (prob : ℚ) : ℚ :=
  rightGo rare m (rare - i) i prob

/-- The left part of the mid-p tail accumulation (post_QC.py lines 61-67):
each new probability is added to `tail` only when it is at most
`prob_mid + 1e-15`. Same loop structure as `leftSum`. -/
def leftTailSum (rare m : ℕ) (prob_mid : ℚ) : ℕ → ℚ → ℚ
  | 0, _ => 0
  | 1, prob =>
      let p := prob * leftStepMul rare m 1
      if p ≤ prob_mid + hweTol then p else 0
  | j + 2, prob =>
      let p := prob * leftStepMul rare m (j + 2)
      (if p ≤ prob_mid + hweTol then p else 0) + leftTailSum rare m prob_mid j p

/-- The right part of the mid-p tail accumulation (post_QC.py lines 69-75),
expressed like `rightGo` as recursion on the distance `rare - k`. -/
def rightTailGo (rare m : ℕ) (prob_mid : ℚ) : ℕ → ℕ → ℚ → ℚ
  | 0, _, _ => 0
  | 1, _, _ => 0
  | d + 2, k, prob =>
      let p := prob * rightStepMul rare m k
      (if p ≤ prob_mid + hweTol then p else 0) + rightTailGo rare m prob_mid d (k + 2) p

/-- Entry point of the right mid-p tail loop at heterozygote count `k`. -/
def rightTailSum (rare m : ℕ) (prob_mid : ℚ) (k : ℕ) (prob : ℚ) : ℚ :=
  rightTailGo rare m prob_mid (rare - k) k prob

/-- Embeds `hwe_pvalue` (post_QC.py lines 22-76), the Wigginton-style exact
HWE mid-p computation. Python's `int(rare * (2*n - rare) / (2*n))` — float
division then truncation — is modelled by exact `ℕ` division (floats are
modelled as exact arithmetic throughout). `p_total` is computed by the code
but never used in the returned value, exactly as in the source. -/
def hwe_pvalue (obs_hom1 obs_het obs_hom2 : ℕ) : ℚ :=
  let obs_homc := min obs_hom1 obs_hom2
  let obs_homo := max obs_hom1 obs_hom2
  let obs_heto := obs_het
  let n := obs_homc + obs_homo + obs_heto
  if n = 0 then 1
  else
    let rare := 2 * obs_homc + obs_heto
    let m := 2 * n - rare
    let mid0 := rare * m / (2 * n)
    let mid := if (rare % 2) ^^^ (mid0 % 2) ≠ 0 then mid0 + 1 else mid0
    let prob_mid : ℚ := 1
    let p_total := prob_mid + leftSum rare m mid prob_mid + rightSum rare m mid prob_mid
    let tail := prob_mid + leftTailSum rare m prob_mid mid prob_mid
      + rightTailSum rare m prob_mid mid prob_mid
    min 1 tail

/-! ### Basic facts about the HWE loop sums -/

theorem leftStepMul_nonneg (rare m i : ℕ) : 0 ≤ leftStepMul rare m i := by
  unfold leftStepMul
  positivity

theorem rightStepMul_nonneg (rare m i : ℕ) : 0 ≤ rightStepMul rare m i := by
  unfold rightStepMul
  positivity

theorem leftTailSum_nonneg (rare m : ℕ) (pm : ℚ) :
    ∀ j (prob : ℚ), 0 ≤ prob → 0 ≤ leftTailSum rare m pm j prob := by
  intro j
  induction j using Nat.strong_induction_on with
  | _ j ih =>
    match j with
    | 0 => intro prob _; simp [leftTailSum]
    | 1 =>
      intro prob hp
      have hm := mul_nonneg hp (leftStepMul_nonneg rare m 1)
      simp only [leftTailSum]
      split <;> simp [hm]
    | j + 2 =>
      intro prob hp
      have hm := mul_nonneg hp (leftStepMul_nonneg rare m (j + 2))
      have hrec := ih j (by omega) _ hm
      simp only [leftTailSum]
      split <;> linarith

theorem rightTailGo_nonneg (rare m : ℕ) (pm : ℚ) :
    ∀ d k (prob : ℚ), 0 ≤ prob → 0 ≤ rightTailGo rare m pm d k prob := by
  intro d
  induction d using Nat.strong_induction_on with
  | _ d ih =>
    match d with
    | 0 => intro k prob _; simp [rightTailGo]
    | 1 => intro k prob _; simp [rightTailGo]
    | d + 2 =>
      intro k prob hp
      have hm := mul_nonneg hp (rightStepMul_nonneg rare m k)
      have hrec := ih d (by omega) (k + 2) _ hm
      simp only [rightTailGo]
      split <;> linarith

theorem rightTailSum_nonneg (rare m : ℕ) (pm : ℚ) (k : ℕ) (prob : ℚ)
    (hp : 0 ≤ prob) : 0 ≤ rightTailSum rare m pm k prob :=
  rightTailGo_nonneg rare m pm (rare - k) k prob hp

/-- Central fact about the source: the mid-p `tail` accumulator starts from
the un-normalized mode probability `prob_mid = 1.0` and only ever grows, and
the result `min(1.0, tail)` is never normalized by `p_total`; hence the
returned p-value is `1` on every input (the `n = 0` branch returns `1`
directly). -/
theorem hwe_pvalue_eq_one (obs_hom1 obs_het obs_hom2 : ℕ) :
    hwe_pvalue obs_hom1 obs_het obs_hom2 = 1 := by
  unfold hwe_pvalue
  dsimp only
  split
  · rfl
  · refine min_eq_left ?_
    refine le_add_of_le_of_nonneg
      (le_add_of_le_of_nonneg le_rfl (leftTailSum_nonneg _ _ _ _ _ zero_le_one))
      (rightTailSum_nonneg _ _ _ _ _ zero_le_one)

/-! ## Numeric field parsing (post_QC.py lines 94-101, 116-119, 132-136) -/

/-- Decimal digits to a natural number. -/
def natOfDigits (cs : List Char) : ℕ :=
  cs.foldl (fun a c => 10 * a + (c.toNat - 48)) 0

/-- Embeds the unsigned core of Python `float(s)`: decimal digits, optional
fraction, optional exponent. `inf`/`nan`/underscores do not occur in the QC
tables and are not modelled; any other malformed literal yields `none`,
matching Python `float` raising `ValueError`. -/
def parseFloatCore (cs : List Char) : Option ℚ :=
  let ip := cs.takeWhile Char.isDigit
  let r1 := cs.dropWhile Char.isDigit
  let fp := match r1 with
            | '.' :: r => r.takeWhile Char.isDigit
            | _ => []
  let r2 := match r1 with
            | '.' :: r => r.dropWhile Char.isDigit
            | _ => r1
  if ip.isEmpty && fp.isEmpty then none
  else
    let mant : ℚ := (natOfDigits ip : ℚ) + (natOfDigits fp : ℚ) / (10 : ℚ) ^ fp.length
    match r2 with
    | [] => some mant
    | e :: r3 =>
      if e = 'e' || e = 'E' then
        let neg : Bool := match r3 with | '-' :: _ => true | _ => false
        let r4 := match r3 with | '-' :: t => t | '+' :: t => t | t => t
        let ed := r4.takeWhile Char.isDigit
        let r5 := r4.dropWhile Char.isDigit
        if ed.isEmpty || !r5.isEmpty then none
        else if neg then some (mant / (10 : ℚ) ^ natOfDigits ed)
        else some (mant * (10 : ℚ) ^ natOfDigits ed)
      else none

/-- Embeds Python `float(s)`: strip whitespace, optional sign, decimal core. -/
def parseFloat? (s : String) : Option ℚ :=
  match pyStrip s.data with
  | '+' :: r => parseFloatCore r
  | '-' :: r => (parseFloatCore r).map (fun q => -q)
  | cs => parseFloatCore cs

/-- Embeds `parse_float_safe` (post_QC.py lines 132-136): `float(x)` with
failure recovered to unavailable. -/
def parse_float_safe (x : String) : Option ℚ := parseFloat? x

/-- Python `int(q)` truncates toward zero; on `ℚ` this is `num / den` with
`ℤ` T-division. -/
def ratTrunc (q : ℚ) : ℤ := q.num / (q.den : ℤ)

/-- Embeds `int(float(x))` as used for genotype counts (post_QC.py lines
96-98 and 117), with `try`/`except` recovered to `none`. -/
def int_of_float_str (x : String) : Option ℤ := (parseFloat? x).map ratTrunc

/-! ## Genotype count resolution (post_QC.py lines 78-120 and 206-214) -/

/-- Embeds `infer_genotype_counts` (post_QC.py lines 78-102): read the three
dedicated genotype-count columns of the selected population; the columns must
all be bound and in range, and all three values must parse, else `none`. -/
def infer_genotype_counts (parts : List String) (col_idx : String → Option ℕ)
    (controls : Bool) : Option (ℤ × ℤ × ℤ) :=
  let ref_col := if controls then col_idx "Controls_Ref" else col_idx "Cases_Ref"
  let het_col := if controls then col_idx "Controls_Het" else col_idx "Cases_Het"
  let alt_col := if controls then col_idx "Controls_Alt" else col_idx "Cases_Alt"
  match ref_col, het_col, alt_col with
  | some r, some h, some a =>
    if r < parts.length ∧ h < parts.length ∧ a < parts.length then
      match int_of_float_str (parts.getD r ""), int_of_float_str (parts.getD h ""),
            int_of_float_str (parts.getD a "") with
      | some x, some y, some z => some (x, y, z)
      | _, _, _ => none
    else none
  | _, _, _ => none

/-- The fixed precedence list of key-triples of `infer_counts_from_info`
(post_QC.py lines 109-113). -/
def keys_sets : List (String × String × String) :=
  [("N_HOMREF", "N_HET", "N_HOMALT"),
   ("OBS_HOM1", "OBS_HET", "OBS_HOM2"),
   ("hom_ref", "het", "hom_alt")]

/-- The loop of `infer_counts_from_info` (post_QC.py lines 114-119): for each
triple in order, if all three keys are present try to parse all three values;
on any parse failure fall through to the next triple. -/
def tryKeyTriples : List (String × String × String) → InfoMap → Option (ℤ × ℤ × ℤ)
  | [], _ => none
  | (a, b, c) :: rest, info =>
    match lookupInfo info a, lookupInfo info b, lookupInfo info c with
    | some va, some vb, some vc =>
      match int_of_float_str va, int_of_float_str vb, int_of_float_str vc with
      | some x, some y, some z => some (x, y, z)
      | _, _, _ => tryKeyTriples rest info
    | _, _, _ => tryKeyTriples rest info

/-- Embeds `infer_counts_from_info` (post_QC.py lines 104-120). -/
def infer_counts_from_info (info : InfoMap) : Option (ℤ × ℤ × ℤ) :=
  tryKeyTriples keys_sets info

/-- Embeds the count-resolution chain of `main` (post_QC.py lines 206-214):
dedicated genotype-count columns first, then the annotation key-triples; a
Python 3-tuple is always truthy, so `if counts:` is `counts is not None`. -/
def resolve_counts (parts : List String) (col_idx : String → Option ℕ)
    (use_controls : Bool) (info : InfoMap) : Option (ℤ × ℤ × ℤ) :=
  match infer_genotype_counts parts col_idx use_controls with
  | some c => some c
  | none => infer_counts_from_info info

/-! ## Streaming driver (post_QC.py lines 138-265) -/

/-- Configuration surface of `main` (post_QC.py lines 139-150). -/
structure Args where
  emac_min : ℚ
  hwe_minp : ℚ
  aaf_col : String
  n_col : String
  info_col : String
  use_controls : Bool
  use_mac_from_info : Bool

/-- The argparse defaults of post_QC.py lines 142-149. -/
def defaultArgs : Args :=
  { emac_min := 100
    hwe_minp := 1 / 10 ^ 12
    aaf_col := "AAF"
    n_col := "Num_Cases"
    info_col := "Info"
    use_controls := false
    use_mac_from_info := false }

/-- Embeds `col_idx = {c: i for i, c in enumerate(cols)}` (post_QC.py line
161): a later duplicate column name overwrites an earlier one. -/
def buildColIdx (cols : List String) : String → Option ℕ :=
  cols.enum.foldl (fun f ci => fun s => if s = ci.2 then some ci.1 else f s)
    (fun _ => none)

/-- Reads a cell by bound column index, guarded by `i < len(parts)` as in the
source (post_QC.py lines 199, 228, 230). -/
def cellAt (parts : List String) (i : Option ℕ) : Option String :=
  match i with
  | some j => if j < parts.length then some (parts.getD j "") else none
  | none => none

/-- The per-row HWE statistic (post_QC.py lines 202-214): an
annotation-supplied `HWE` value takes precedence; otherwise resolve genotype
counts and run the exact test. Genotype counts are non-negative in the data
model, so the embedding feeds `toNat` images to `hwe_pvalue`. -/
def row_hwe_p (args : Args) (col_idx : String → Option ℕ) (parts : List String)
    (info : InfoMap) : Option ℚ :=
  match lookupInfo info "HWE" with
  | some v => parse_float_safe v
  | none =>
    match resolve_counts parts col_idx args.use_controls info with
    | some (homref, het, homalt) => some (hwe_pvalue homref.toNat het.toNat homalt.toNat)
    | none => none

/-- The per-row EMAC statistic (post_QC.py lines 216-232): `MAC` from the
annotation when requested, else `EMAC` from the annotation, else computed
from the allele-frequency and sample-size columns. -/
def row_emac (args : Args) (col_idx : String → Option ℕ) (parts : List String)
    (info : InfoMap) : Option ℚ :=
  if args.use_mac_from_info && (lookupInfo info "MAC").isSome then
    parse_float_safe ((lookupInfo info "MAC").getD "")
  else
    match lookupInfo info "EMAC" with
    | some v => parse_float_safe v
    | none =>
      let aaf := (cellAt parts (col_idx args.aaf_col)).bind parse_float_safe
      let neff := (cellAt parts (col_idx args.n_col)).bind parse_float_safe
      emac_from_fields aaf neff

/-- The four running counters of the driver (post_QC.py lines 184-187). -/
structure Stats where
  kept : ℕ
  total : ℕ
  filtered_emac : ℕ
  filtered_hwe : ℕ
deriving DecidableEq, Repr

/-- One iteration of the row loop (post_QC.py lines 189-252): a blank line is
skipped before any counter is touched; then the two statistics are resolved,
checked strictly (lines 236-237), and the counters updated (lines 245-252). -/
def stepRow (args : Args) (col_idx : String → Option ℕ) (s : Stats)
    (line : String) : Stats :=
  if line = "" then s
  else
    let parts := (line.data.splitOn '\t').map String.mk
    let info := match cellAt parts (col_idx args.info_col) with
                | some cell => parse_info cell
                | none => []
    let pass_hwe := pass_strict (row_hwe_p args col_idx parts info) args.hwe_minp
    let pass_emac := pass_strict (row_emac args col_idx parts info) args.emac_min
    { kept := s.kept + (if pass_hwe && pass_emac then 1 else 0)
      total := s.total + 1
      filtered_emac := s.filtered_emac + (if pass_emac then 0 else 1)
      filtered_hwe := s.filtered_hwe + (if pass_hwe then 0 else 1) }

/-- Embeds the driver of `main` (post_QC.py lines 155-265) on an already
line-split input: empty header is a fatal startup error (line 156-158); rows
are folded through the row loop; the final summary divides by `total`
(line 264, `100*kept/total`), which in Python raises `ZeroDivisionError` when
no data row was counted — modelled as an `Except.error`. -/
def run_main (args : Args) (header : String) (rows : List String) :
    Except String (Stats × ℚ) :=
  if header = "" then .error "Erreur: fichier vide ou sans en-tete"
  else
    let col_idx := buildColIdx ((header.data.splitOn '\t').map String.mk)
    let s := rows.foldl (stepRow args col_idx) ⟨0, 0, 0, 0⟩
    if s.total = 0 then .error "ZeroDivisionError"
    else .ok (s, 100 * (s.kept : ℚ) / (s.total : ℚ))

/-! ## Helper lemmas -/

theorem int_of_float_str_nat (s : String) (k : ℕ)
    (h : parseFloat? s = some ((k : ℚ) + ((0 : ℕ) : ℚ) / (10 : ℚ) ^ (0 : ℕ))) :
    int_of_float_str s = some (k : ℤ) := by
  unfold int_of_float_str
  rw [h]
  have h2 : ((k : ℚ) + ((0 : ℕ) : ℚ) / (10 : ℚ) ^ (0 : ℕ)) = (k : ℚ) := by norm_num
  rw [h2]
  simp [ratTrunc]

theorem iofs_one : int_of_float_str "1" = some 1 := by
  simpa using int_of_float_str_nat "1" 1 rfl

theorem iofs_two : int_of_float_str "2" = some 2 := by
  simpa using int_of_float_str_nat "2" 2 rfl

theorem iofs_three : int_of_float_str "3" = some 3 := by
  simpa using int_of_float_str_nat "3" 3 rfl

theorem iofs_seven : int_of_float_str "7" = some 7 := by
  simpa using int_of_float_str_nat "7" 7 rfl

theorem iofs_eight : int_of_float_str "8" = some 8 := by
  simpa using int_of_float_str_nat "8" 8 rfl

theorem iofs_nine : int_of_float_str "9" = some 9 := by
  simpa using int_of_float_str_nat "9" 9 rfl

theorem iofs_twentyfive : int_of_float_str "25" = some 25 := by
  simpa using int_of_float_str_nat "25" 25 rfl

theorem iofs_fifty : int_of_float_str "50" = some 50 := by
  simpa using int_of_float_str_nat "50" 50 rfl

theorem iofs_ten : int_of_float_str "10" = some 10 := by
  simpa using int_of_float_str_nat "10" 10 rfl

/-- Example schema binding the three Controls genotype-count columns. -/
def exampleColIdx : String → Option ℕ :=
  buildColIdx ["Controls_Ref", "Controls_Het", "Controls_Alt"]

theorem infer_genotype_counts_example :
    infer_genotype_counts ["25", "50", "10"] exampleColIdx true = some (25, 50, 10) := by
  show (match int_of_float_str "25", int_of_float_str "50", int_of_float_str "10" with
        | some x, some y, some z => some (x, y, z)
        | _, _, _ => none) = some (25, 50, 10)
  rw [iofs_twentyfive, iofs_fifty, iofs_ten]

theorem foldl_parseStep_mem :
    ∀ (l : List (List Char)) (acc : InfoMap) (p : String × String),
      p ∈ l.foldl parseStep acc → p ∈ acc ∨ ∃ seg ∈ l, parseSeg seg = some p := by
  intro l
  induction l with
  | nil => intro acc p hp; exact Or.inl hp
  | cons a t ih =>
    intro acc p hp
    rw [List.foldl_cons] at hp
    rcases ih (parseStep acc a) p hp with h | ⟨seg, hs, hps⟩
    · unfold parseStep at h
      revert h
      cases hpa : parseSeg a with
      | none => intro h; exact Or.inl h
      | some q =>
        intro h
        rcases List.mem_append.mp h with h1 | h2
        · exact Or.inl h1
        · have hpq : p = q := by simpa using h2
          exact Or.inr ⟨a, by simp, by rw [hpa, hpq]⟩
    · exact Or.inr ⟨seg, by simp [hs], hps⟩

theorem foldl_parseStep_length :
    ∀ (l : List (List Char)) (acc : InfoMap),
      (l.foldl parseStep acc).length ≤ acc.length + l.length := by
  intro l
  induction l with
  | nil => intro acc; simp
  | cons a t ih =>
    intro acc
    rw [List.foldl_cons]
    have h1 := ih (parseStep acc a)
    have h2 : (parseStep acc a).length ≤ acc.length + 1 := by
      unfold parseStep; split <;> simp
    simp only [List.length_cons]
    omega

theorem int_log_eq_of_bounds (x : ℚ) (k : ℤ) (hx : 0 < x)
    (hk1 : (2 : ℚ) ^ k ≤ x) (hk2 : x < (2 : ℚ) ^ (k + 1)) :
    Int.log 2 x = k := by
  have h1 : (2 : ℚ) ^ Int.log 2 x ≤ x := Int.zpow_log_le_self (by norm_num) hx
  have h2 : x < (2 : ℚ) ^ (Int.log 2 x + 1) := Int.lt_zpow_succ_log_self (by norm_num) x
  by_contra hne
  rcases lt_or_gt_of_ne hne with h | h
  · have : (2 : ℚ) ^ (Int.log 2 x + 1) ≤ (2 : ℚ) ^ k :=
      zpow_le_zpow_right₀ (by norm_num) (by omega)
    linarith
  · have : (2 : ℚ) ^ (k + 1) ≤ (2 : ℚ) ^ Int.log 2 x :=
      zpow_le_zpow_right₀ (by norm_num) (by omega)
    linarith

theorem fl64pos_eq_down (x : ℚ) (k m : ℤ) (hx : 0 < x)
    (hk1 : (2 : ℚ) ^ k ≤ x) (hk2 : x < (2 : ℚ) ^ (k + 1))
    (hm1 : (m : ℚ) * (2 : ℚ) ^ (k - 52) ≤ x)
    (hm2 : x < ((m : ℚ) + 1 / 2) * (2 : ℚ) ^ (k - 52)) :
    fl64pos x = (m : ℚ) * (2 : ℚ) ^ (k - 52) := by
  have hp : (0 : ℚ) < (2 : ℚ) ^ (k - 52) := zpow_pos (by norm_num) _
  have hlog : Int.log 2 x = k := int_log_eq_of_bounds x k hx hk1 hk2
  have hfloor : ⌊x / (2 : ℚ) ^ (k - 52)⌋ = m := by
    rw [Int.floor_eq_iff]
    constructor
    · rw [le_div_iff₀ hp]; exact hm1
    · rw [div_lt_iff₀ hp]
      calc x < ((m : ℚ) + 1 / 2) * (2 : ℚ) ^ (k - 52) := hm2
        _ ≤ ((m : ℚ) + 1) * (2 : ℚ) ^ (k - 52) := by
            apply mul_le_mul_of_nonneg_right (by linarith) hp.le
  have hr : x / (2 : ℚ) ^ (k - 52) - (m : ℚ) < 1 / 2 := by
    rw [sub_lt_iff_lt_add, div_lt_iff₀ hp]
    calc x < ((m : ℚ) + 1 / 2) * (2 : ℚ) ^ (k - 52) := hm2
      _ = (1 / 2 + (m : ℚ)) * (2 : ℚ) ^ (k - 52) := by ring
  unfold fl64pos
  dsimp only
  rw [hlog, hfloor, if_pos hr]

theorem fl64pos_eq_up (x : ℚ) (k m : ℤ) (hx : 0 < x)
    (hk1 : (2 : ℚ) ^ k ≤ x) (hk2 : x < (2 : ℚ) ^ (k + 1))
    (hm1 : ((m : ℚ) + 1 / 2) * (2 : ℚ) ^ (k - 52) < x)
    (hm2 : x < ((m : ℚ) + 1) * (2 : ℚ) ^ (k - 52)) :
    fl64pos x = ((m : ℚ) + 1) * (2 : ℚ) ^ (k - 52) := by
  have hp : (0 : ℚ) < (2 : ℚ) ^ (k - 52) := zpow_pos (by norm_num) _
  have hlog : Int.log 2 x = k := int_log_eq_of_bounds x k hx hk1 hk2
  have hfloor : ⌊x / (2 : ℚ) ^ (k - 52)⌋ = m := by
    rw [Int.floor_eq_iff]
    constructor
    · rw [le_div_iff₀ hp]
      calc (m : ℚ) * (2 : ℚ) ^ (k - 52)
          ≤ ((m : ℚ) + 1 / 2) * (2 : ℚ) ^ (k - 52) := by
            apply mul_le_mul_of_nonneg_right (by linarith) hp.le
        _ ≤ x := hm1.le
    · rw [div_lt_iff₀ hp]; exact_mod_cast hm2
  have hr1 : ¬ x / (2 : ℚ) ^ (k - 52) - (m : ℚ) < 1 / 2 := by
    rw [not_lt, le_sub_iff_add_le, le_div_iff₀ hp]
    calc (1 / 2 + (m : ℚ)) * (2 : ℚ) ^ (k - 52)
        = ((m : ℚ) + 1 / 2) * (2 : ℚ) ^ (k - 52) := by ring
      _ ≤ x := hm1.le
  have hr2 : 1 / 2 < x / (2 : ℚ) ^ (k - 52) - (m : ℚ) := by
    rw [lt_sub_iff_add_lt, lt_div_iff₀ hp]
    calc (1 / 2 + (m : ℚ)) * (2 : ℚ) ^ (k - 52)
        = ((m : ℚ) + 1 / 2) * (2 : ℚ) ^ (k - 52) := by ring
      _ < x := hm1
  unfold fl64pos
  dsimp only
  rw [hlog, hfloor, if_neg hr1, if_pos hr2]

theorem fl64pos_eq_exact (x : ℚ) (k m : ℤ) (hx : 0 < x)
    (hk1 : (2 : ℚ) ^ k ≤ x) (hk2 : x < (2 : ℚ) ^ (k + 1))
    (hm : x = (m : ℚ) * (2 : ℚ) ^ (k - 52)) :
    fl64pos x = x := by
  have hp : (0 : ℚ) < (2 : ℚ) ^ (k - 52) := zpow_pos (by norm_num) _
  have h1 : (m : ℚ) * (2 : ℚ) ^ (k - 52) ≤ x := le_of_eq hm.symm
  have h2 : x < ((m : ℚ) + 1 / 2) * (2 : ℚ) ^ (k - 52) := by
    rw [hm]; apply mul_lt_mul_of_pos_right (by linarith) hp
  rw [fl64pos_eq_down x k m hx hk1 hk2 h1 h2, hm]

theorem fl64_of_pos (x : ℚ) (hx : 0 < x) : fl64 x = fl64pos x := by
  unfold fl64
  rw [if_neg (ne_of_gt hx), if_neg (not_lt.mpr hx.le)]

/-- The binary64 value of the source literal `0.1`. -/
theorem fl64_tenth : fl64 (1 / 10) = 3602879701896397 / 2 ^ 55 := by
  rw [fl64_of_pos _ (by norm_num),
    fl64pos_eq_up (1 / 10) (-4) 7205759403792793 (by norm_num) (by norm_num)
      (by norm_num) (by norm_num) (by norm_num)]
  norm_num

/-- The binary64 value of the source literal `0.9`. -/
theorem fl64_ninetenths : fl64 (9 / 10) = 8106479329266893 / 2 ^ 53 := by
  rw [fl64_of_pos _ (by norm_num),
    fl64pos_eq_up (9 / 10) (-1) 8106479329266892 (by norm_num) (by norm_num)
      (by norm_num) (by norm_num) (by norm_num)]
  norm_num

/-- The binary64 product `2.0 * 50.0` is exact. -/
theorem fl64_hundred : fl64 (2 * 50) = 100 := by
  rw [show ((2 : ℚ) * 50) = 100 by norm_num,
    fl64_of_pos _ (by norm_num),
    fl64pos_eq_exact 100 6 7036874417766400 (by norm_num) (by norm_num)
      (by norm_num) (by norm_num)]

/-- The binary64 subtraction `1.0 - double(0.9)` is exact and does not equal
`double(0.1)`. -/
theorem fl64_sub_ninetenths :
    fl64 (1 - 8106479329266893 / 2 ^ 53) = 900719925474099 / 2 ^ 53 := by
  rw [show (1 : ℚ) - 8106479329266893 / 2 ^ 53 = 900719925474099 / 2 ^ 53 by norm_num,
    fl64_of_pos _ (by norm_num),
    fl64pos_eq_exact _ (-4) 7205759403792792 (by norm_num) (by norm_num)
      (by norm_num) (by norm_num)]

/-- The binary64 product `100.0 * double(0.1)` rounds down to exactly `10.0`. -/
theorem fl64_prod_tenth : fl64 (100 * (3602879701896397 / 2 ^ 55)) = 10 := by
  rw [show (100 : ℚ) * (3602879701896397 / 2 ^ 55) = 90071992547409925 / 2 ^ 53 by norm_num,
    fl64_of_pos _ (by norm_num),
    fl64pos_eq_down _ 3 5629499534213120 (by norm_num) (by norm_num) (by norm_num)
      (by norm_num) (by norm_num)]
  norm_num

/-- The binary64 product `100.0 * (1.0 - double(0.9))` rounds up to the
double printed `9.999999999999998`, one ulp below `10.0`. -/
theorem fl64_prod_ninetenths :
    fl64 (100 * (900719925474099 / 2 ^ 53)) = 5629499534213119 / 2 ^ 49 := by
  rw [show (100 : ℚ) * (900719925474099 / 2 ^ 53) = 90071992547409900 / 2 ^ 53 by norm_num,
    fl64_of_pos _ (by norm_num),
    fl64pos_eq_up _ 3 5629499534213118 (by norm_num) (by norm_num) (by norm_num)
      (by norm_num) (by norm_num)]
  push_cast
  ring

theorem emac_ieee_tenth :
    emac_from_fields_ieee (some (fl64 (1 / 10))) (some 50) = some 10 := by
  rw [fl64_tenth]
  unfold emac_from_fields_ieee
  dsimp only
  rw [if_pos (by norm_num : (3602879701896397 / 2 ^ 55 : ℚ) ≤ 1 / 2),
    fl64_hundred, fl64_prod_tenth]

theorem emac_ieee_ninetenths :
    emac_from_fields_ieee (some (fl64 (9 / 10))) (some 50) =
      some (5629499534213119 / 2 ^ 49) := by
  rw [fl64_ninetenths]
  unfold emac_from_fields_ieee
  dsimp only
  rw [if_neg (by norm_num : ¬ (8106479329266893 / 2 ^ 53 : ℚ) ≤ 1 / 2),
    fl64_hundred, fl64_sub_ninetenths, fl64_prod_ninetenths]

/-! ## Claims -/

/-- C1: the spec asserts that the HWE exact test discriminates equilibrium
from disequilibrium — p > 0.5 at (25, 50, 25) and p < 1e-6 at (90, 0, 10)
for n = 100. The code keeps the first half only vacuously: it returns `1`
at both inputs (its mid-p tail is accumulated un-normalized from the mode
probability `1.0`, and `p_total` is never used), so at the skewed triple
(90, 0, 10) it returns `1`, not a value below `1e-6`. -/
theorem claim_C1_code_constant_at_test_points :
    hwe_pvalue 25 50 25 = 1 ∧
      hwe_pvalue 90 0 10 = 1 ∧ ¬ hwe_pvalue 90 0 10 < 1 / 10 ^ 6 := by
  refine ⟨hwe_pvalue_eq_one 25 50 25, hwe_pvalue_eq_one 90 0 10, ?_⟩
  rw [hwe_pvalue_eq_one]
  norm_num

/-- C2: for every genotype-count triple of non-negative integers,
`hwe_pvalue` returns exactly `1`: the mid-p tail accumulator starts from the
mode's un-normalized probability `1.0`, is never divided by `p_total`, and
only grows, so `min 1 tail = 1`; the `n = 0` branch returns `1` as well. -/
theorem claim_C2_hwe_pvalue_always_one (homRef het homAlt : ℕ) :
    hwe_pvalue homRef het homAlt = 1 :=
  hwe_pvalue_eq_one homRef het homAlt

/-- C3: under the strict semantics a row is admitted iff both the HWE check
and the EMAC check pass, an unavailable statistic fails its check, and a row
with both statistics unavailable is rejected, while the (spec-modelled)
permissive semantics admits that same row. -/
theorem claim_C3_strict_vs_permissive :
    (∀ (hp em : Option ℚ) (hmin emin : ℚ),
        admit_strict hp em hmin emin = true ↔
          (pass_strict hp hmin = true ∧ pass_strict em emin = true)) ∧
      (∀ thr : ℚ, pass_strict none thr = false) ∧
      (∀ hmin emin : ℚ, admit_strict none none hmin emin = false) ∧
      (∀ hmin emin : ℚ, admit_permissive none none hmin emin = true) :=
  ⟨fun _ _ _ _ => by simp [admit_strict], fun _ => rfl, fun _ _ => rfl, fun _ _ => rfl⟩

/-- C4: genotype counts are resolved with the dedicated case/control columns
first and the annotation key-triples second in the fixed precedence
N_HOMREF-style, then OBS-style, then lower-case style; a non-numeric value in
a chosen triple makes that triple count as absent and the next source is
tried; when every source fails the result is `none`, never a zero triple. -/
theorem claim_C4_count_resolution :
    (∀ (parts : List String) (ci : String → Option ℕ) (ctr : Bool)
        (info : InfoMap) (c : ℤ × ℤ × ℤ),
        infer_genotype_counts parts ci ctr = some c →
          resolve_counts parts ci ctr info = some c) ∧
      (∀ (parts : List String) (ci : String → Option ℕ) (ctr : Bool)
          (info : InfoMap),
          infer_genotype_counts parts ci ctr = none →
            resolve_counts parts ci ctr info = infer_counts_from_info info) ∧
      infer_counts_from_info
          (parse_info "N_HOMREF=1;N_HET=2;N_HOMALT=3;hom_ref=7;het=8;hom_alt=9") =
        some (1, 2, 3) ∧
      infer_counts_from_info
          (parse_info "N_HOMREF=NA;N_HET=2;N_HOMALT=3;hom_ref=7;het=8;hom_alt=9") =
        some (7, 8, 9) ∧
      infer_counts_from_info (parse_info "N_HOMREF=NA;N_HET=2;N_HOMALT=3") = none ∧
      resolve_counts ["NA"] (fun _ => none) true (parse_info "N_HOMREF=NA") = none := by
  refine ⟨?_, ?_, ?_, ?_, by decide, by decide⟩
  · intro parts ci ctr info c h
    unfold resolve_counts
    rw [h]
  · intro parts ci ctr info h
    unfold resolve_counts
    rw [h]
  · show (match int_of_float_str "1", int_of_float_str "2", int_of_float_str "3" with
          | some x, some y, some z => some (x, y, z)
          | _, _, _ => tryKeyTriples
              [("OBS_HOM1", "OBS_HET", "OBS_HOM2"), ("hom_ref", "het", "hom_alt")]
              (parse_info "N_HOMREF=1;N_HET=2;N_HOMALT=3;hom_ref=7;het=8;hom_alt=9")) =
        some (1, 2, 3)
    rw [iofs_one, iofs_two, iofs_three]
  · show (match int_of_float_str "7", int_of_float_str "8", int_of_float_str "9" with
          | some x, some y, some z => some (x, y, z)
          | _, _, _ => tryKeyTriples []
              (parse_info "N_HOMREF=NA;N_HET=2;N_HOMALT=3;hom_ref=7;het=8;hom_alt=9")) =
        some (7, 8, 9)
    rw [iofs_seven, iofs_eight, iofs_nine]

theorem claim_C4_witness :
    (infer_genotype_counts ["25", "50", "10"] exampleColIdx true = some (25, 50, 10) ∧
        resolve_counts ["25", "50", "10"] exampleColIdx true [] = some (25, 50, 10)) ∧
      (infer_genotype_counts [] (fun _ => none) false = none ∧
        resolve_counts [] (fun _ => none) false [] = infer_counts_from_info []) :=
  ⟨⟨infer_genotype_counts_example,
      claim_C4_count_resolution.1 _ _ _ _ _ infer_genotype_counts_example⟩,
    ⟨rfl, claim_C4_count_resolution.2.1 _ _ _ _ rfl⟩⟩

/-- C5: the EMAC estimator is unavailable when either input is unavailable
and otherwise returns `2 * nEff * min aaf (1 - aaf)`; in particular
`emac(0.5, 100) = 100`. -/
theorem claim_C5_emac_definition :
    (∀ n : Option ℚ, emac_from_fields none n = none) ∧
      (∀ a : Option ℚ, emac_from_fields a none = none) ∧
      (∀ a n : ℚ, emac_from_fields (some a) (some n) = some (2 * n * min a (1 - a))) ∧
      emac_from_fields (some (1 / 2)) (some 100) = some 100 := by
  refine ⟨fun n => ?_, fun a => ?_, fun a n => ?_, by norm_num [emac_from_fields]⟩
  · cases n <;> rfl
  · cases a <;> rfl
  · simp only [emac_from_fields]
    split_ifs with h
    · rw [min_eq_left (by linarith)]
    · rw [min_eq_right (by linarith)]

/-- C6 counterexample: under the source's IEEE binary64 arithmetic the
claimed symmetry fails at its own concrete instance. With the doubles
denoted by the literals `0.1` and `0.9` (that is, `fl64 (1/10)` and
`fl64 (9/10)`), `emac(0.1, 50)` evaluates to exactly `10.0` while
`emac(0.9, 50)` evaluates to `5629499534213119/2^49 = 9.999999999999998`,
because `1.0 - double(0.9)` is not `double(0.1)`. -/
theorem claim_C6_counterexample :
    emac_from_fields_ieee (some (fl64 (1 / 10))) (some 50) ≠
      emac_from_fields_ieee (some (fl64 (9 / 10))) (some 50) := by
  rw [emac_ieee_tenth, emac_ieee_ninetenths]
  intro h
  have h2 : (10 : ℚ) = 5629499534213119 / 2 ^ 49 := Option.some.inj h
  norm_num at h2

/-- C6 (amended): the EMAC estimator is symmetric under replacing the allele
frequency `aaf` by `1 - aaf` in exact arithmetic, but the program's IEEE
doubles violate the claim's instance: `emac(0.1, 50)` returns `10.0` while
`emac(0.9, 50)` returns `5629499534213119/2^49 = 9.999999999999998`. -/
theorem claim_C6_exact_symmetry_ieee_asymmetry :
    (∀ a n : ℚ, emac_from_fields (some a) (some n) =
        emac_from_fields (some (1 - a)) (some n)) ∧
      emac_from_fields_ieee (some (fl64 (1 / 10))) (some 50) = some 10 ∧
      emac_from_fields_ieee (some (fl64 (9 / 10))) (some 50) =
        some (5629499534213119 / 2 ^ 49) := by
  refine ⟨fun a n => ?_, emac_ieee_tenth, emac_ieee_ninetenths⟩
  simp only [emac_from_fields]
  rcases le_or_lt a (1 / 2) with h | h
  · rcases eq_or_lt_of_le h with he | hlt
    · rw [he]; norm_num
    · rw [if_pos h, if_neg (by linarith : ¬(1 - a ≤ 1 / 2))]
      congr 1
      ring
  · rw [if_neg (by linarith : ¬(a ≤ 1 / 2)), if_pos (by linarith : 1 - a ≤ 1 / 2)]

/-- C7: the HWE exact test is symmetric in the two homozygote counts, since
the code only consumes them through `min` and `max`. -/
theorem claim_C7_hwe_pvalue_symmetric (a het b : ℕ) :
    hwe_pvalue a het b = hwe_pvalue b het a := by
  unfold hwe_pvalue
  rw [min_comm b a, max_comm b a]

/-- C8: when the genotyped sample size is zero the HWE test returns `1`
without error; in particular `hwe_pvalue 0 0 0 = 1`. -/
theorem claim_C8_hwe_pvalue_zero_info (homRef het homAlt : ℕ)
    (h : homRef + het + homAlt = 0) : hwe_pvalue homRef het homAlt = 1 := by
  obtain ⟨h1, h2, h3⟩ : homRef = 0 ∧ het = 0 ∧ homAlt = 0 := by omega
  subst h1; subst h2; subst h3
  decide

theorem claim_C8_witness : (0 + 0 + 0 = 0) ∧ hwe_pvalue 0 0 0 = 1 :=
  ⟨rfl, claim_C8_hwe_pvalue_zero_info 0 0 0 rfl⟩

/-- C9: the annotation parser is total: every entry of its output arises
from some `;`-separated segment split at its first `=` with both sides
trimmed, the output never has more entries than the input has segments, and
concrete cases show empty and `=`-less segments are ignored, a duplicate key
resolves to the last occurrence, and splitting happens at the first `=`. -/
theorem claim_C9_parse_info_never_fails :
    (∀ (s : String) (p : String × String), p ∈ parse_info s →
        ∃ seg ∈ splitSemi s.data, parseSeg seg = some p) ∧
      (∀ s : String, (parse_info s).length ≤ (splitSemi s.data).length) ∧
      parse_info "a=1;;b;c=2" = [("a", "1"), ("c", "2")] ∧
      lookupInfo (parse_info "a=1;a=2") "a" = some "2" ∧
      parse_info " k = v=w " = [("k", "v=w")] := by
  refine ⟨fun s p hp => ?_, fun s => ?_, by decide, by decide, by decide⟩
  · rcases foldl_parseStep_mem (splitSemi s.data) [] p hp with h | h
    · exact absurd h (List.not_mem_nil p)
    · exact h
  · simpa using foldl_parseStep_length (splitSemi s.data) []

theorem claim_C9_witness :
    (("a", "1") ∈ parse_info "a=1") ∧
      ∃ seg ∈ splitSemi "a=1".data, parseSeg seg = some ("a", "1") :=
  ⟨by decide, claim_C9_parse_info_never_fails.1 "a=1" ("a", "1") (by decide)⟩

/-- C10: on a valid non-empty header with zero data rows the driver finishes
the row loop with `total = 0`, and its final summary computes
`100 * kept / total`, which raises a division-by-zero error instead of
completing the run normally. -/
theorem claim_C10_zero_rows_division (args : Args) (header : String)
    (h : header ≠ "") :
    (([] : List String).foldl
          (stepRow args (buildColIdx ((header.data.splitOn '\t').map String.mk)))
          ⟨0, 0, 0, 0⟩).total = 0 ∧
      run_main args header [] = Except.error "ZeroDivisionError" := by
  refine ⟨rfl, ?_⟩
  unfold run_main
  rw [if_neg h]
  rfl

theorem claim_C10_witness :
    ("Name\tAAF\tNum_Cases\tInfo" ≠ "") ∧
      run_main defaultArgs "Name\tAAF\tNum_Cases\tInfo" [] =
        Except.error "ZeroDivisionError" :=
  ⟨by decide, (claim_C10_zero_rows_division defaultArgs _ (by decide)).2⟩
